import Mathlib

/-!
Verification of the ps5-uart protocol/session engine (src/uart/ps5_uart.cpp).

Strings are modelled as lists of byte values (`List Nat`); every byte read
off the wire is in `[0, 256)` in the real program, but the definitions are
total over all naturals.  Machine arithmetic (`u8`, `u32`, `size_t`) is
modelled with `Nat` plus explicit `% 2^w` where overflow can occur.
-/

/-! ## Byte and hex helpers -/

/-- Modelled from the spec: hex-digit decoding used by the helpers of the
missing `string_utils.h` (`hex2buf`, `int_from_hex`).  Accepts the usual
ASCII digit ranges `0-9`, `A-F`, `a-f`. -/
def hexDigitVal (c : Nat) : Option Nat :=
  if 48 ≤ c ∧ c ≤ 57 then some (c - 48)
  else if 65 ≤ c ∧ c ≤ 70 then some (c - 55)
  else if 97 ≤ c ∧ c ≤ 102 then some (c - 87)
  else none

/-- Modelled from the spec: `strip_trailing_crlf` from the missing
`string_utils.h`: removes any trailing CR (13) / LF (10) bytes in place. -/
def stripTrailingCrlf (l : List Nat) : List Nat :=
  ((l.reverse.dropWhile (fun c => c == 13 || c == 10))).reverse

/-- Modelled from the spec: `hex2buf` from the missing `string_utils.h`:
decodes a string of pairs of hex digits into bytes; fails on odd length or
any non-hex character. -/
def hex2buf : List Nat → Option (List Nat)
  | [] => some []
  | [_] => none
  | a :: b :: rest =>
    match hexDigitVal a, hexDigitVal b, hex2buf rest with
    | some x, some y, some r => some ((x * 16 + y) :: r)
    | _, _, _ => none

/-- `checksum` (ps5_uart.cpp:26): sum of all bytes, truncated to `u8`. -/
def checksum (buf : List Nat) : Nat :=
  buf.foldl (fun csum b => (csum + b) % 256) 0

/-- `std::string::find_last_of` for a single wanted byte: index of the last
occurrence of `c`, or `none`. -/
def find_last_of (c : Nat) : List Nat → Option Nat
  | [] => none
  | x :: xs =>
    match find_last_of c xs with
    | some i => some (i + 1)
    | none => if x = c then some 0 else none

/-- `validate_line` (ps5_uart.cpp:34): rejects the empty line, strips
trailing CR/LF, requires the last `:` to sit exactly three bytes from the
end, decodes the two following hex digits and compares them with the
checksum of everything before the colon.  `some stripped` models a `true`
return with the line mutated to `stripped`; `none` models `false`. -/
def validate_line (line : List Nat) : Option (List Nat) :=
  if line = [] then none
  else
    match find_last_of 58 (stripTrailingCrlf line) with
    | none => none
    | some last_colon =>
      if last_colon + 3 ≠ (stripTrailingCrlf line).length then none
      else
        match hex2buf ((stripTrailingCrlf line).drop (last_colon + 1)) with
        | some (b :: _) =>
          if b = checksum ((stripTrailingCrlf line).take last_colon) then
            some ((stripTrailingCrlf line).take last_colon)
          else none
        | _ => none

/-! ## Helper lemmas about the codec -/

theorem hexDigitVal_isSome_iff (c : Nat) :
    (hexDigitVal c).isSome ↔
      (48 ≤ c ∧ c ≤ 57) ∨ (65 ≤ c ∧ c ≤ 70) ∨ (97 ≤ c ∧ c ≤ 102) := by
  unfold hexDigitVal
  split
  · simp_all
  · split
    · simp_all
    · split
      · simp_all
      · simp_all
        try omega

theorem find_last_of_spec (c : Nat) (l : List Nat) (i : Nat)
    (h : find_last_of c l = some i) : ∃ hi : i < l.length, l.get ⟨i, hi⟩ = c := by
  induction l generalizing i with
  | nil => simp [find_last_of] at h
  | cons x xs ih =>
    unfold find_last_of at h
    cases hfx : find_last_of c xs with
    | some j =>
      rw [hfx] at h
      obtain ⟨hj, hget⟩ := ih j hfx
      cases h
      exact ⟨by simpa using Nat.succ_lt_succ hj, by simpa using hget⟩
    | none =>
      rw [hfx] at h
      by_cases hx : x = c
      · simp [hx] at h
        cases h
        exact ⟨by simp, by simpa using hx⟩
      · simp [hx] at h

theorem find_last_of_append (c : Nat) (p : List Nat) (t : List Nat)
    (ht : find_last_of c t = some 0) :
    find_last_of c (p ++ t) = some p.length := by
  induction p with
  | nil => simpa using ht
  | cons x xs ih =>
    unfold find_last_of
    simp only [List.cons_append]
    rw [ih]
    simp

theorem hex_ne_colon {h v : Nat} (hh : hexDigitVal h = some v) : h ≠ 58 := by
  have : (hexDigitVal h).isSome := by rw [hh]; rfl
  rw [hexDigitVal_isSome_iff] at this
  omega

theorem find_last_of_suffix (p : List Nat) (h1 h2 : Nat)
    (hh1 : h1 ≠ 58) (hh2 : h2 ≠ 58) :
    find_last_of 58 (p ++ [58, h1, h2]) = some p.length := by
  apply find_last_of_append
  unfold find_last_of
  simp [hh1, hh2, find_last_of]

theorem hex2buf_pair {a b x y : Nat} (ha : hexDigitVal a = some x)
    (hb : hexDigitVal b = some y) : hex2buf [a, b] = some [x * 16 + y] := by
  unfold hex2buf
  rw [ha, hb]
  rfl

theorem hex2buf_eq_pair {l out : List Nat} (hlen : l.length = 2)
    (h : hex2buf l = some out) :
    ∃ a b x y, l = [a, b] ∧ hexDigitVal a = some x ∧ hexDigitVal b = some y ∧
      out = [x * 16 + y] := by
  match l, hlen with
  | [a, b], _ =>
    unfold hex2buf at h
    cases hx : hexDigitVal a with
    | none => rw [hx] at h; cases h
    | some x =>
      cases hy : hexDigitVal b with
      | none => rw [hx, hy] at h; cases h
      | some y =>
        rw [hx, hy] at h
        simp only [hex2buf] at h
        cases h
        exact ⟨a, b, x, y, rfl, hx, hy, rfl⟩

/-- C4: `validate_line` returns `false` on the empty line, on any line
whose (CR/LF-stripped) text does not end in a colon followed by exactly two
hex digits, and on any line whose decoded checksum byte differs from the
mod-256 sum of the bytes before the colon; on success it returns `true`
and the line is mutated to exactly the text before the colon with trailing
CR/LF removed.  The function is total over all byte strings. -/
theorem validate_line_correct (line : List Nat) :
    (line = [] → validate_line line = none) ∧
    (∀ r, validate_line line = some r →
       line ≠ [] ∧ ∃ h1 h2 v1 v2,
         stripTrailingCrlf line = r ++ [58, h1, h2] ∧
         hexDigitVal h1 = some v1 ∧ hexDigitVal h2 = some v2 ∧
         v1 * 16 + v2 = checksum r) ∧
    (∀ p h1 h2 v1 v2, line ≠ [] →
       stripTrailingCrlf line = p ++ [58, h1, h2] →
       hexDigitVal h1 = some v1 → hexDigitVal h2 = some v2 →
       (v1 * 16 + v2 = checksum p → validate_line line = some p) ∧
       (v1 * 16 + v2 ≠ checksum p → validate_line line = none)) := by
  refine ⟨fun h => by simp [validate_line, h], ?_, ?_⟩
  · intro r h
    unfold validate_line at h
    split at h
    · cases h
    · rename_i hline
      refine ⟨hline, ?_⟩
      split at h
      · cases h
      · rename_i last_colon hf
        split at h
        · cases h
        · rename_i hlen
          have hlen3 : last_colon + 3 = (stripTrailingCrlf line).length := by
            omega
          split at h
          · rename_i b rest hhex
            split at h
            · rename_i hb
              obtain ⟨hi, hget⟩ := find_last_of_spec 58 _ _ hf
              have hdlen : ((stripTrailingCrlf line).drop (last_colon + 1)).length = 2 := by
                rw [List.length_drop]
                omega
              obtain ⟨a, b2, x, y, hpair, hxa, hyb, hout⟩ :=
                hex2buf_eq_pair hdlen hhex
              have hbv : b = x * 16 + y := by
                rw [hpair, hex2buf_pair hxa hyb] at hhex
                cases hhex
                rfl
              have hsplit : stripTrailingCrlf line =
                  (stripTrailingCrlf line).take last_colon ++ [58, a, b2] := by
                conv_lhs => rw [← List.take_append_drop last_colon (stripTrailingCrlf line)]
                congr 1
                rw [List.drop_eq_getElem_cons hi, hpair]
                simp only [List.get_eq_getElem] at hget
                rw [hget]
              cases h
              exact ⟨a, b2, x, y, hsplit, hxa, hyb, by omega⟩
            · cases h
          · cases h
  · intro p h1 h2 v1 v2 hline hsplit hv1 hv2
    have hfl : find_last_of 58 (stripTrailingCrlf line) = some p.length := by
      rw [hsplit]
      exact find_last_of_suffix p h1 h2 (hex_ne_colon hv1) (hex_ne_colon hv2)
    have hslen : (stripTrailingCrlf line).length = p.length + 3 := by
      rw [hsplit]; simp
    have hdrop : (stripTrailingCrlf line).drop (p.length + 1) = [h1, h2] := by
      rw [hsplit]
      have : p ++ [58, h1, h2] = (p ++ [58]) ++ [h1, h2] := by simp
      rw [this]
      have hl : (p ++ [58]).length = p.length + 1 := by simp
      rw [← hl, List.drop_left]
    have htake : (stripTrailingCrlf line).take p.length = p := by
      rw [hsplit]
      exact List.take_left p _
    constructor
    · intro hcs
      unfold validate_line
      rw [if_neg hline, hfl]
      simp only [hslen]
      rw [if_neg (by omega)]
      rw [hdrop, hex2buf_pair hv1 hv2]
      simp only [htake]
      rw [if_pos hcs]
    · intro hcs
      unfold validate_line
      rw [if_neg hline, hfl]
      simp only [hslen]
      rw [if_neg (by omega)]
      rw [hdrop, hex2buf_pair hv1 hv2]
      simp only [htake]
      rw [if_neg hcs]

/-- Witness for C4 on the concrete line `A:41\r\n` (bytes `[65,58,52,49,13,10]`):
the checksum of `A` is `0x41`, so validation succeeds and strips `:41` and
the CR/LF, leaving `A`. -/
theorem validate_line_correct_witness :
    stripTrailingCrlf [65, 58, 52, 49, 13, 10] = [65] ++ [58, 52, 49] ∧
    validate_line [65, 58, 52, 49, 13, 10] = some [65] :=
  ⟨by decide,
   ((validate_line_correct [65, 58, 52, 49, 13, 10]).2.2 [65] 52 49 4 1
     (by decide) (by decide) (by decide) (by decide)).1 (by decide)⟩

/-! ## Status codes (ps5_uart.cpp:55) -/

def kSuccess : Nat := 0
def kUcmdUnknownCmd : Nat := 0xF0000006
def kEmcInReset : Nat := 0xdead0000
def kFwConstsVersionFailed : Nat := 0xdead0001
def kFwConstsVersionUnknown : Nat := 0xdead0002
def kFwConstsInvalid : Nat := 0xdead0003
def kSetPayloadTooLarge : Nat := 0xdead0004
def kSetPayloadPuareq1Failed : Nat := 0xdead0005
def kSetPayloadPuareq2Failed : Nat := 0xdead0006
def kExploitVersionUnexpected : Nat := 0xdead0007
def kExploitFailedEmcReset : Nat := 0xdead0008

/-- `Result::kInvalidStatus = UINT32_MAX` (ps5_uart.cpp:431). -/
def kInvalidStatus : Nat := 4294967295

/-! ## `UcmdClientEmc::Result` (ps5_uart.cpp:309) -/

/-- `ResultType` (ps5_uart.cpp:309). -/
inductive ResultType where
  | kTimeout
  | kUnknown
  | kComment
  | kInfo
  | kOk
  | kNg
deriving DecidableEq

/-- `Result` (ps5_uart.cpp:318): a tagged response with a 32-bit status
(meaningful only for Ok/Ng) and a textual payload. -/
structure Result where
  type_ : ResultType
  status_ : Nat
  response_ : List Nat
deriving DecidableEq

def Result.new_timeout : Result := ⟨.kTimeout, kInvalidStatus, []⟩

def Result.new_unknown (str : List Nat) : Result := ⟨.kUnknown, kInvalidStatus, str⟩

def Result.new_ok (status : Nat) (str : List Nat) : Result := ⟨.kOk, status, str⟩

def Result.new_ng (status : Nat) (str : List Nat) : Result := ⟨.kNg, status, str⟩

def Result.new_success : Result := Result.new_ok kSuccess []

def Result.is_unknown (r : Result) : Bool := decide (r.type_ = ResultType.kUnknown)

def Result.is_comment (r : Result) : Bool := decide (r.type_ = ResultType.kComment)

def Result.is_info (r : Result) : Bool := decide (r.type_ = ResultType.kInfo)

def Result.is_ok (r : Result) : Bool := decide (r.type_ = ResultType.kOk)

def Result.is_ng (r : Result) : Bool := decide (r.type_ = ResultType.kNg)

def Result.is_ok_or_ng (r : Result) : Bool := r.is_ok || r.is_ng

def Result.is_ok_status (r : Result) (status : Nat) : Bool :=
  r.is_ok && decide (r.status_ = status)

def Result.is_ng_status (r : Result) (status : Nat) : Bool :=
  r.is_ng && decide (r.status_ = status)

def Result.is_success (r : Result) : Bool := r.is_ok_status kSuccess

/-- One step of accumulator-style hex decoding. -/
def parseHexAcc : List Nat → Nat → Option Nat
  | [], acc => some acc
  | c :: cs, acc =>
    match hexDigitVal c with
    | some v => parseHexAcc cs (acc * 16 + v)
    | none => none

/-- Modelled from the spec: `int_from_hex<u32>(str, offset)` from the
missing `string_utils.h`: decodes exactly eight hexadecimal digits of
`str` starting at `offset` into a 32-bit value; fails if fewer than eight
characters remain or any of them is not a hex digit. -/
def int_from_hex32 (str : List Nat) (offset : Nat) : Option Nat :=
  if ((str.drop offset).take 8).length = 8 then parseHexAcc ((str.drop offset).take 8) 0
  else none

/-- `Result::from_str` (ps5_uart.cpp:319).  Byte constants: `35 36 32` are
`'#' '$' ' '`; `[79,75,32]` is `OK ` and `[78,71,32]` is `NG `. -/
def Result.from_str (str : List Nat) : Result :=
  if 2 < str.length ∧ str.take 2 = [35, 32] then
    ⟨.kComment, kInvalidStatus, str.drop 2⟩
  else if 3 < str.length ∧ str.take 3 = [36, 36, 32] then
    ⟨.kInfo, kInvalidStatus, str.drop 3⟩
  else if str.length < 11 then Result.new_unknown str
  else if str.take 3 ≠ [79, 75, 32] ∧ str.take 3 ≠ [78, 71, 32] then
    Result.new_unknown str
  else
    match int_from_hex32 str 3 with
    | none => Result.new_unknown str
    | some status =>
      if 11 < str.length then
        if str.getD 11 0 ≠ 32 then Result.new_unknown str
        else ⟨if str.take 3 = [79, 75, 32] then .kOk else .kNg, status, str.drop 12⟩
      else ⟨if str.take 3 = [79, 75, 32] then .kOk else .kNg, status, []⟩

/-- One uppercase hex digit (used by `std::format("{:08X}")`). -/
def hexUp (d : Nat) : Nat := if d < 10 then 48 + d else 55 + d

/-- `std::format("{:08X}", v)`: eight zero-padded uppercase hex digits. -/
def toHex8 (v : Nat) : List Nat :=
  [hexUp (v / 16 ^ 7 % 16), hexUp (v / 16 ^ 6 % 16), hexUp (v / 16 ^ 5 % 16),
   hexUp (v / 16 ^ 4 % 16), hexUp (v / 16 ^ 3 % 16), hexUp (v / 16 ^ 2 % 16),
   hexUp (v / 16 % 16), hexUp (v % 16)]

/-- `Result::format` (ps5_uart.cpp:393).  `[116,...]` spells `timeout`. -/
def Result.format (r : Result) : List Nat :=
  if r.is_ok_or_ng then
    (if r.is_ok then [79, 75] else [78, 71]) ++ [32] ++ toHex8 r.status_ ++ [32] ++ r.response_
  else if r.is_comment then [35, 32] ++ r.response_
  else if r.is_info then [36, 36, 32] ++ r.response_
  else if r.is_unknown then r.response_
  else [116, 105, 109, 101, 111, 117, 116]

theorem hexDigitVal_hexUp (d : Nat) (hd : d < 16) : hexDigitVal (hexUp d) = some d := by
  unfold hexUp hexDigitVal
  by_cases h : d < 10
  · rw [if_pos h, if_pos (by omega)]
    congr 1
    omega
  · rw [if_neg h, if_neg (by omega), if_pos (by omega)]
    congr 1
    omega

theorem hexDigitVal_hexUp_mod (x : Nat) : hexDigitVal (hexUp (x % 16)) = some (x % 16) :=
  hexDigitVal_hexUp _ (Nat.mod_lt _ (by omega))

theorem parseHexAcc_toHex8 (v : Nat) (hv : v < 2 ^ 32) :
    parseHexAcc (toHex8 v) 0 = some v := by
  simp only [toHex8, parseHexAcc, hexDigitVal_hexUp_mod]
  congr 1
  omega

theorem from_str_ok_core (H resp : List Nat) (st : Nat) (hH : H.length = 8)
    (hp : parseHexAcc H 0 = some st) :
    Result.from_str (79 :: 75 :: 32 :: (H ++ 32 :: resp)) =
      ⟨ResultType.kOk, st, resp⟩ := by
  match H, hH with
  | [a, b, c, d, e, f, g, h], _ =>
    simp only [List.cons_append, List.nil_append]
    have hint : int_from_hex32
        (79 :: 75 :: 32 :: a :: b :: c :: d :: e :: f :: g :: h :: 32 :: resp) 3 =
        some st := by
      unfold int_from_hex32
      simpa using hp
    simp_arith [Result.from_str, hint, List.getD]

theorem from_str_ng_core (H resp : List Nat) (st : Nat) (hH : H.length = 8)
    (hp : parseHexAcc H 0 = some st) :
    Result.from_str (78 :: 71 :: 32 :: (H ++ 32 :: resp)) =
      ⟨ResultType.kNg, st, resp⟩ := by
  match H, hH with
  | [a, b, c, d, e, f, g, h], _ =>
    simp only [List.cons_append, List.nil_append]
    have hint : int_from_hex32
        (78 :: 71 :: 32 :: a :: b :: c :: d :: e :: f :: g :: h :: 32 :: resp) 3 =
        some st := by
      unfold int_from_hex32
      simpa using hp
    simp_arith [Result.from_str, hint, List.getD]

theorem toHex8_length (v : Nat) : (toHex8 v).length = 8 := by
  simp [toHex8]

/-- C6: for every `Result` whose variant is Ok or Ng, with any 32-bit
status and any payload free of the frame's reserved separator bytes
(LF 10 and CR 13), parsing the formatted text yields the same `Result`
back: `from_str (format r) = r`. -/
theorem from_str_format_ok_ng (r : Result)
    (hty : r.type_ = ResultType.kOk ∨ r.type_ = ResultType.kNg)
    (hst : r.status_ < 2 ^ 32)
    (hsep : (10 : Nat) ∉ r.response_ ∧ (13 : Nat) ∉ r.response_) :
    Result.from_str (Result.format r) = r := by
  obtain ⟨t, st, resp⟩ := r
  simp only at hty hst
  cases hty with
  | inl h =>
    subst h
    have hfmt : Result.format ⟨ResultType.kOk, st, resp⟩ =
        79 :: 75 :: 32 :: (toHex8 st ++ 32 :: resp) := by
      simp [Result.format, Result.is_ok_or_ng, Result.is_ok]
    rw [hfmt, from_str_ok_core _ _ _ (toHex8_length st) (parseHexAcc_toHex8 st hst)]
  | inr h =>
    subst h
    have hfmt : Result.format ⟨ResultType.kNg, st, resp⟩ =
        78 :: 71 :: 32 :: (toHex8 st ++ 32 :: resp) := by
      simp [Result.format, Result.is_ok_or_ng, Result.is_ok, Result.is_ng]
    rw [hfmt, from_str_ng_core _ _ _ (toHex8_length st) (parseHexAcc_toHex8 st hst)]

/-- Witness for C6 at the concrete result `NG 0xF0000006 "hi"`
(payload bytes `[104,105]`). -/
theorem from_str_format_ok_ng_witness :
    Result.from_str (Result.format ⟨ResultType.kNg, 0xF0000006, [104, 105]⟩) =
      ⟨ResultType.kNg, 0xF0000006, [104, 105]⟩ :=
  from_str_format_ok_ng ⟨ResultType.kNg, 0xF0000006, [104, 105]⟩
    (Or.inr rfl) (by decide) (by decide)

/-- C5 (amended): `Result::from_str` is total and classifies in order:
a line with `"# "` prefix and a nonempty remainder is a Comment carrying
the remainder; a line with `"$$ "` prefix and a nonempty remainder is an
Info; a line starting with `"OK "`/`"NG "` followed by exactly eight hex
digits and either nothing or a space-separated payload is Ok/Ng with the
decoded status; everything else (including the bare two-byte `"# "` and
three-byte `"$$ "`, wrong lengths, bad hex and missing separators)
degrades to Unknown carrying the original text. -/
theorem from_str_classification (str : List Nat) :
    (2 < str.length → str.take 2 = [35, 32] →
       Result.from_str str = ⟨ResultType.kComment, kInvalidStatus, str.drop 2⟩) ∧
    (3 < str.length → str.take 3 = [36, 36, 32] →
       Result.from_str str = ⟨ResultType.kInfo, kInvalidStatus, str.drop 3⟩) ∧
    (∀ st, (str.take 3 = [79, 75, 32] ∨ str.take 3 = [78, 71, 32]) →
       int_from_hex32 str 3 = some st →
       (str.length = 11 ∨ str.getD 11 0 = 32) →
       Result.from_str str =
         ⟨if str.take 3 = [79, 75, 32] then ResultType.kOk else ResultType.kNg, st,
          str.drop 12⟩) ∧
    (¬(2 < str.length ∧ str.take 2 = [35, 32]) →
     ¬(3 < str.length ∧ str.take 3 = [36, 36, 32]) →
     ¬(11 ≤ str.length ∧ (str.take 3 = [79, 75, 32] ∨ str.take 3 = [78, 71, 32]) ∧
        (int_from_hex32 str 3).isSome ∧ (str.length = 11 ∨ str.getD 11 0 = 32)) →
       Result.from_str str = Result.new_unknown str) := by
  refine ⟨?_, ?_, ?_, ?_⟩
  · intro h2 ht
    unfold Result.from_str
    rw [if_pos ⟨h2, ht⟩]
  · intro h3 ht
    have ht2 : str.take 2 = [36, 36] := by
      have h := congrArg (fun l => List.take 2 l) ht
      simpa [List.take_take] using h
    unfold Result.from_str
    rw [if_neg (by simp [ht2])]
    rw [if_pos ⟨h3, ht⟩]
  · intro st hok hint hsp
    have hlen8 : ((str.drop 3).take 8).length = 8 := by
      by_contra hc
      unfold int_from_hex32 at hint
      rw [if_neg hc] at hint
      cases hint
    have hge : 11 ≤ str.length := by
      rw [List.length_take, List.length_drop] at hlen8
      omega
    have hn11 : ¬ str.length < 11 := by omega
    cases hok with
    | inl hOK =>
      have ht2 : str.take 2 = [79, 75] := by
        have h := congrArg (fun l => List.take 2 l) hOK
        simpa [List.take_take] using h
      rcases Nat.lt_or_ge 11 str.length with h11 | h11
      · have hg : str.getD 11 0 = 32 := by
          rcases hsp with h | h
          · omega
          · exact h
        simp [Result.from_str, ht2, hOK, hint, hn11, h11, hg]
        intro hc
        exact absurd ((List.getD_eq_getElem str 0 (by omega)).symm.trans hg) hc
      · have h11e : str.length = 11 := by omega
        have hd : str.drop 12 = [] := List.drop_eq_nil_of_le (by omega)
        simp [Result.from_str, ht2, hOK, hint, hn11, h11e, hd]
    | inr hNG =>
      have ht2 : str.take 2 = [78, 71] := by
        have h := congrArg (fun l => List.take 2 l) hNG
        simpa [List.take_take] using h
      rcases Nat.lt_or_ge 11 str.length with h11 | h11
      · have hg : str.getD 11 0 = 32 := by
          rcases hsp with h | h
          · omega
          · exact h
        simp [Result.from_str, ht2, hNG, hint, hn11, h11, hg]
        intro hc
        exact absurd ((List.getD_eq_getElem str 0 (by omega)).symm.trans hg) hc
      · have h11e : str.length = 11 := by omega
        have hd : str.drop 12 = [] := List.drop_eq_nil_of_le (by omega)
        simp [Result.from_str, ht2, hNG, hint, hn11, h11e, hd]
  · intro hn1 hn2 hn3
    unfold Result.from_str
    rw [if_neg hn1, if_neg hn2]
    by_cases hlt : str.length < 11
    · rw [if_pos hlt]
    · rw [if_neg hlt]
      by_cases htk : str.take 3 ≠ [79, 75, 32] ∧ str.take 3 ≠ [78, 71, 32]
      · rw [if_pos htk]
      · rw [if_neg htk]
        cases hint : int_from_hex32 str 3 with
        | none => simp [hint]
        | some st =>
          have hok : str.take 3 = [79, 75, 32] ∨ str.take 3 = [78, 71, 32] := by
            by_contra hc
            push_neg at hc
            exact htk ⟨hc.1, hc.2⟩
          by_cases h11 : 11 < str.length
          · by_cases hg : str.getD 11 0 = 32
            · exact absurd ⟨by omega, hok, by rw [hint]; rfl, Or.inr hg⟩ hn3
            · simp [hint, h11, hg]
              intro hc
              exact absurd ((List.getD_eq_getElem str 0 (by omega)).trans hc) hg
          · exact absurd ⟨by omega, hok, by rw [hint]; rfl, Or.inl (by omega)⟩ hn3

/-- C5 counterexample: the two-byte line `"# "` (bytes `[35,32]`) carries
the comment prefix, yet `from_str` classifies it as Unknown because the
code requires `size() > 2`; so not every `"# "`-prefixed line becomes a
Comment. -/
theorem from_str_comment_cex :
    ([35, 32] : List Nat).take 2 = [35, 32] ∧
    Result.from_str [35, 32] = Result.new_unknown [35, 32] ∧
    (Result.from_str [35, 32]).type_ ≠ ResultType.kComment := by decide

/-- Witness for C5 at the line `OK 00000000 x`. -/
theorem from_str_classification_witness :
    Result.from_str [79, 75, 32, 48, 48, 48, 48, 48, 48, 48, 48, 32, 120] =
      ⟨if ([79, 75, 32, 48, 48, 48, 48, 48, 48, 48, 48, 32, 120] : List Nat).take 3 =
          [79, 75, 32] then ResultType.kOk else ResultType.kNg, 0,
       ([79, 75, 32, 48, 48, 48, 48, 48, 48, 48, 48, 32, 120] : List Nat).drop 12⟩ :=
  (from_str_classification _).2.2.1 0 (Or.inl (by decide)) (by decide)
    (Or.inr (by decide))

/-! ## The interrupt-fed ring buffer `Buffer<1024>` (ps5_uart.cpp:116)

`Buffer1k = Buffer<1024>`.  The source masks indices with
`& (BufferSize - 1)` under a `static_assert(popcount(BufferSize) == 1)`;
for the power-of-two size 1024 this is exactly `% 1024`, which is how
`add` is rendered here.  The byte storage is a total function
`Fin 1024 → Nat`. -/

/-- `Buffer::add` (ps5_uart.cpp:122) for `BufferSize = 1024`. -/
def bufAdd (val addend : Nat) : Nat := (val + addend) % 1024

/-- The mutable state of a `Buffer<1024>`. -/
structure Buf where
  wpos : Nat
  rpos : Nat
  num_newlines : Nat
  buffer : Fin 1024 → Nat

/-- The freshly zero-initialised buffer. -/
def Buf.init : Buf := ⟨0, 0, 0, fun _ => 0⟩

/-- `Buffer::read_available` (ps5_uart.cpp:125). -/
def Buf.read_available (s : Buf) : Nat :=
  if s.rpos ≤ s.wpos then s.wpos - s.rpos else 1024 - s.rpos + s.wpos

/-- `buffer[i]` for an already-reduced index. -/
def Buf.byteAt (s : Buf) (i : Nat) : Nat :=
  s.buffer ⟨i % 1024, Nat.mod_lt _ (by omega)⟩

/-- The bytes currently stored, in FIFO order: positions
`rpos, rpos+1, …, rpos+available-1` (mod 1024). -/
def storedBytes (s : Buf) : List Nat :=
  (List.range s.read_available).map (fun i => s.byteAt (bufAdd s.rpos i))

/-- `Buffer::push` (ps5_uart.cpp:198): stores the byte and advances the
write index unless the buffer is full (one slot is kept empty); the
newline counter is incremented for a `'\n'` byte in either case. -/
def Buf.push (s : Buf) (b : Nat) : Buf :=
  let wpos_next := bufAdd s.wpos 1
  let s1 :=
    if wpos_next = s.rpos then s
    else { s with
           buffer := fun j => if j.val = s.wpos % 1024 then b else s.buffer j,
           wpos := wpos_next }
  if b = 10 then { s1 with num_newlines := s1.num_newlines + 1 } else s1

/-- Index of the first stored newline, scanning from the read position. -/
def firstNl : List Nat → Option Nat
  | [] => none
  | c :: cs => if c = 10 then some 0 else (firstNl cs).map (· + 1)

/-- `Buffer::read_line` (ps5_uart.cpp:132).  Fast-rejects when no newline
is pending or the buffer is empty; otherwise scans up to `read_available`
bytes for a `'\n'`, appending the preceding bytes to `line`.  When a
newline is found the read index moves past it and the newline counter is
decremented (the source decrements `num_newlines` on `size_t`; in every
reachable state a stored newline implies the counter is positive, so `Nat`
subtraction agrees).  The captured line then runs through
`validate_line`; on failure the line is cleared and `false` returned. -/
def Buf.read_line (s : Buf) (line : List Nat) : Bool × List Nat × Buf :=
  if s.num_newlines = 0 ∨ s.rpos = s.wpos then (false, line, s)
  else
    match firstNl (storedBytes s) with
    | some i =>
      let captured := line ++ (storedBytes s).take i
      let s1 : Buf := { s with rpos := bufAdd (bufAdd s.rpos i) 1,
                               num_newlines := s.num_newlines - 1 }
      match validate_line captured with
      | some stripped => (true, stripped, s1)
      | none => (false, [], s1)
    | none => (false, [], s)

/-- One iteration of the `Buffer::read_buf` copy loop (ps5_uart.cpp:187):
reads the byte at `rpos`, decrements the newline counter if it is a
newline, advances `rpos`. -/
def readBufLoop : Nat → Buf → List Nat × Buf
  | 0, s => ([], s)
  | k + 1, s =>
    let c := s.byteAt s.rpos
    let s1 : Buf := { s with rpos := bufAdd s.rpos 1,
                             num_newlines := if c = 10 then s.num_newlines - 1
                                             else s.num_newlines }
    let r := readBufLoop k s1
    (c :: r.1, r.2)

/-- `Buffer::read_buf` (ps5_uart.cpp:183): drains `min len available`
bytes. -/
def Buf.read_buf (s : Buf) (len : Nat) : List Nat × Buf :=
  readBufLoop (min len s.read_available) s

/-- `Buffer::clear` (ps5_uart.cpp:215): resets the indices and the newline
counter; the storage itself is not wiped. -/
def Buf.clear (s : Buf) : Buf := { s with wpos := 0, rpos := 0, num_newlines := 0 }

/-- The states reachable from the zero-initialised buffer by any
interleaving of the buffer's operations. -/
inductive Reachable : Buf → Prop
  | init : Reachable Buf.init
  | push (s : Buf) (b : Nat) : Reachable s → Reachable (s.push b)
  | read_line (s : Buf) (line : List Nat) : Reachable s →
      Reachable (s.read_line line).2.2
  | read_buf (s : Buf) (len : Nat) : Reachable s → Reachable (s.read_buf len).2
  | clear (s : Buf) : Reachable s → Reachable s.clear

/-! ## Ring buffer lemmas -/

theorem byteAt_congr (s : Buf) {i j : Nat} (h : i % 1024 = j % 1024) :
    s.byteAt i = s.byteAt j := by
  unfold Buf.byteAt
  congr 1
  exact Fin.ext h

theorem bufAdd_lt (v a : Nat) : bufAdd v a < 1024 := Nat.mod_lt _ (by omega)

theorem bufAdd_bufAdd (v a b : Nat) : bufAdd (bufAdd v a) b = bufAdd v (a + b) := by
  unfold bufAdd
  omega

theorem read_available_le (s : Buf) (hw : s.wpos < 1024) (hr : s.rpos < 1024) :
    s.read_available ≤ 1023 := by
  unfold Buf.read_available
  split <;> omega

theorem storedBytes_length (s : Buf) : (storedBytes s).length = s.read_available := by
  simp [storedBytes]

theorem read_available_lt (s : Buf) (hw : s.wpos < 1024) (hr : s.rpos < 1024) :
    s.read_available < 1024 :=
  Nat.lt_of_le_of_lt (read_available_le s hw hr) (by omega)

/-- Advancing the read index by `d ≤ available` drops the first `d` stored
bytes and shrinks `read_available` by `d`. -/
theorem storedBytes_advance (s : Buf) (d : Nat) (hw : s.wpos < 1024)
    (hr : s.rpos < 1024) (hd : d ≤ s.read_available) :
    ({ s with rpos := bufAdd s.rpos d } : Buf).read_available =
        s.read_available - d ∧
      storedBytes { s with rpos := bufAdd s.rpos d } = (storedBytes s).drop d := by
  constructor
  · unfold Buf.read_available at hd ⊢
    unfold bufAdd
    dsimp only
    split at hd <;> split <;> omega
  · have havail : ({ s with rpos := bufAdd s.rpos d } : Buf).read_available =
        s.read_available - d := by
      unfold Buf.read_available at hd ⊢
      unfold bufAdd
      dsimp only
      split at hd <;> split <;> omega
    unfold storedBytes
    rw [havail]
    have hsplit : s.read_available = d + (s.read_available - d) := by omega
    conv_rhs => rw [hsplit, List.range_add, List.map_append]
    rw [List.drop_left' (by simp), List.map_map]
    apply List.map_congr_left
    intro i hi
    show s.byteAt (bufAdd (bufAdd s.rpos d) i) = s.byteAt (bufAdd s.rpos (d + i))
    apply byteAt_congr
    unfold bufAdd
    omega

theorem push_full (s : Buf) (b : Nat) (h : bufAdd s.wpos 1 = s.rpos) :
    s.push b = { s with num_newlines :=
                  if b = 10 then s.num_newlines + 1 else s.num_newlines } := by
  unfold Buf.push
  dsimp only
  rw [if_pos h]
  by_cases hb : b = 10 <;> simp [hb]

theorem byteAt_push (s : Buf) (b x : Nat) (h : bufAdd s.wpos 1 ≠ s.rpos) :
    (s.push b).byteAt x = if x % 1024 = s.wpos % 1024 then b else s.byteAt x := by
  unfold Buf.push Buf.byteAt
  dsimp only
  rw [if_neg h]
  by_cases hb : b = 10 <;> simp [hb]

theorem push_not_full_fields (s : Buf) (b : Nat) (h : bufAdd s.wpos 1 ≠ s.rpos)
    (hw : s.wpos < 1024) (hr : s.rpos < 1024) :
    (s.push b).read_available = s.read_available + 1 ∧ (s.push b).rpos = s.rpos ∧
      (s.push b).wpos = bufAdd s.wpos 1 ∧
      (s.push b).num_newlines =
        (if b = 10 then s.num_newlines + 1 else s.num_newlines) := by
  have hfields : (s.push b).rpos = s.rpos ∧ (s.push b).wpos = bufAdd s.wpos 1 ∧
      (s.push b).num_newlines =
        (if b = 10 then s.num_newlines + 1 else s.num_newlines) := by
    unfold Buf.push
    dsimp only
    rw [if_neg h]
    by_cases hb : b = 10 <;> simp [hb]
  refine ⟨?_, hfields.1, hfields.2.1, hfields.2.2⟩
  unfold Buf.read_available
  rw [hfields.1, hfields.2.1]
  unfold bufAdd at h ⊢
  split <;> split <;> omega

theorem stored_pos_ne_wpos (s : Buf) (hw : s.wpos < 1024) (hr : s.rpos < 1024)
    (i : Nat) (hi : i < s.read_available) : bufAdd s.rpos i % 1024 ≠ s.wpos % 1024 := by
  unfold Buf.read_available at hi
  unfold bufAdd
  split at hi <;> omega

theorem storedBytes_push (s : Buf) (b : Nat) (h : bufAdd s.wpos 1 ≠ s.rpos)
    (hw : s.wpos < 1024) (hr : s.rpos < 1024) :
    storedBytes (s.push b) = storedBytes s ++ [b] := by
  obtain ⟨ha, hrp, hwp, hnn⟩ := push_not_full_fields s b h hw hr
  unfold storedBytes
  rw [ha, hrp, List.range_succ, List.map_append]
  congr 1
  · apply List.map_congr_left
    intro i hi
    rw [byteAt_push s b _ h]
    rw [if_neg (stored_pos_ne_wpos s hw hr i (List.mem_range.mp hi))]
  · simp only [List.map_cons, List.map_nil]
    congr 1
    rw [byteAt_push s b _ h]
    rw [if_pos ?side]
    case side =>
      unfold Buf.read_available
      unfold bufAdd
      split <;> omega

theorem storedBytes_nn_irrel (s : Buf) (x y : Nat) :
    storedBytes { s with rpos := x, num_newlines := y } =
      storedBytes { s with rpos := x } := rfl

theorem storedBytes_head (s : Buf) (h : 1 ≤ s.read_available) :
    (storedBytes s).headD 0 = s.byteAt s.rpos := by
  unfold storedBytes
  obtain ⟨k, hk⟩ : ∃ k, s.read_available = k + 1 := ⟨s.read_available - 1, by omega⟩
  rw [hk, List.range_succ_eq_map]
  simp only [List.map_cons, List.headD_cons]
  apply byteAt_congr
  unfold bufAdd
  omega

theorem storedBytes_cons (s : Buf) (hw : s.wpos < 1024) (hr : s.rpos < 1024)
    (h : 1 ≤ s.read_available) :
    storedBytes s = s.byteAt s.rpos :: storedBytes { s with rpos := bufAdd s.rpos 1 } := by
  have hadv := (storedBytes_advance s 1 hw hr h).2
  rw [hadv]
  have hlen : (storedBytes s).length = s.read_available := storedBytes_length s
  have hhead := storedBytes_head s h
  cases hsb : storedBytes s with
  | nil =>
    rw [hsb] at hlen
    simp at hlen
    omega
  | cons c rest =>
    rw [hsb] at hhead
    simp only [List.headD_cons] at hhead
    rw [← hhead]
    simp

theorem firstNl_of_not_mem (l : List Nat) (h : (10 : Nat) ∉ l) : firstNl l = none := by
  induction l with
  | nil => rfl
  | cons c cs ih =>
    unfold firstNl
    rw [if_neg (by simp at h; omega)]
    rw [ih (by simp at h; exact fun hm => h.2 hm)]
    rfl

theorem firstNl_some_spec (l : List Nat) (i : Nat) (h : firstNl l = some i) :
    ∃ pre post, l = pre ++ 10 :: post ∧ pre.length = i ∧ (10 : Nat) ∉ pre := by
  induction l generalizing i with
  | nil => cases h
  | cons c cs ih =>
    unfold firstNl at h
    by_cases hc : c = 10
    · rw [if_pos hc] at h
      cases h
      exact ⟨[], cs, by rw [hc]; rfl, rfl, by simp⟩
    · rw [if_neg hc] at h
      cases hf : firstNl cs with
      | none => rw [hf] at h; cases h
      | some j =>
        rw [hf] at h
        simp only [Option.map] at h
        cases h
        obtain ⟨pre, post, hsplit, hlen, hmem⟩ := ih j hf
        refine ⟨c :: pre, post, by simp [hsplit], by simp [hlen], ?_⟩
        intro hm
        rcases List.mem_cons.mp hm with hm | hm
        · exact hc hm.symm
        · exact hmem hm

/-- The documented state invariant of the ring buffer: indices in range
and the pending-newline counter equal to the number of stored `'\n'`s. -/
def BufInv (s : Buf) : Prop :=
  s.wpos < 1024 ∧ s.rpos < 1024 ∧ s.num_newlines = (storedBytes s).count 10

theorem storedBytes_set_nn (s : Buf) (y : Nat) :
    storedBytes { s with num_newlines := y } = storedBytes s := rfl

theorem BufInv_clear (s : Buf) : BufInv s.clear := by
  refine ⟨by simp [Buf.clear], by simp [Buf.clear], ?_⟩
  simp [Buf.clear, storedBytes, Buf.read_available]

theorem BufInv_push (s : Buf) (b : Nat) (hInv : BufInv s)
    (hok : bufAdd s.wpos 1 = s.rpos → b ≠ 10) : BufInv (s.push b) := by
  obtain ⟨hw, hr, hnn⟩ := hInv
  by_cases hfull : bufAdd s.wpos 1 = s.rpos
  · rw [push_full s b hfull, if_neg (hok hfull)]
    exact ⟨hw, hr, hnn⟩
  · obtain ⟨ha, hrp, hwp, hnn2⟩ := push_not_full_fields s b hfull hw hr
    refine ⟨by rw [hwp]; exact bufAdd_lt _ _, by rw [hrp]; exact hr, ?_⟩
    rw [hnn2, storedBytes_push s b hfull hw hr, List.count_append]
    by_cases hb : b = 10
    · simp [hb, hnn]
    · simp [hb, hnn, List.count_cons]

theorem BufInvGe_push (s : Buf) (b : Nat) (hw : s.wpos < 1024) (hr : s.rpos < 1024)
    (hnn : (storedBytes s).count 10 ≤ s.num_newlines) :
    (s.push b).wpos < 1024 ∧ (s.push b).rpos < 1024 ∧
      (storedBytes (s.push b)).count 10 ≤ (s.push b).num_newlines := by
  by_cases hfull : bufAdd s.wpos 1 = s.rpos
  · rw [push_full s b hfull]
    refine ⟨hw, hr, ?_⟩
    rw [storedBytes_set_nn]
    by_cases hb : b = 10 <;> simp [hb] <;> omega
  · obtain ⟨ha, hrp, hwp, hnn2⟩ := push_not_full_fields s b hfull hw hr
    refine ⟨by rw [hwp]; exact bufAdd_lt _ _, by rw [hrp]; exact hr, ?_⟩
    rw [hnn2, storedBytes_push s b hfull hw hr, List.count_append]
    by_cases hb : b = 10
    · simp [hb]
      omega
    · simp [hb, List.count_cons]
      omega

theorem readBufLoop_state (k : Nat) : ∀ s : Buf, k ≤ s.read_available →
    s.wpos < 1024 → s.rpos < 1024 →
    (readBufLoop k s).2.wpos = s.wpos ∧ (readBufLoop k s).2.rpos < 1024 ∧
      storedBytes (readBufLoop k s).2 = (storedBytes s).drop k ∧
      ((storedBytes s).count 10 ≤ s.num_newlines →
        (storedBytes (readBufLoop k s).2).count 10 ≤ (readBufLoop k s).2.num_newlines) ∧
      (s.num_newlines = (storedBytes s).count 10 →
        (readBufLoop k s).2.num_newlines = (storedBytes (readBufLoop k s).2).count 10) := by
  induction k with
  | zero =>
    intro s hk hw hr
    exact ⟨rfl, hr, by simp [readBufLoop], fun h => h, fun h => h⟩
  | succ k ih =>
    intro s hk hw hr
    have h1 : 1 ≤ s.read_available := by omega
    have hcons := storedBytes_cons s hw hr h1
    have hadv := storedBytes_advance s 1 hw hr h1
    set c := s.byteAt s.rpos with hc
    set s1 : Buf := { s with rpos := bufAdd s.rpos 1,
                             num_newlines := if c = 10 then s.num_newlines - 1
                                             else s.num_newlines } with hs1
    have hres : (readBufLoop (k + 1) s).2 = (readBufLoop k s1).2 := by
      rfl
    have hstored1 : storedBytes s1 = storedBytes { s with rpos := bufAdd s.rpos 1 } := rfl
    have havail1 : s1.read_available = s.read_available - 1 := hadv.1
    have hstored1' : storedBytes s1 = (storedBytes s).drop 1 := by
      rw [hstored1, hadv.2]
    have hcount : (storedBytes s).count 10 =
        (storedBytes s1).count 10 + (if c = 10 then 1 else 0) := by
      rw [hstored1', hcons]
      by_cases hb : c = 10 <;> simp [hb, List.count_cons]
    obtain ⟨ihw, ihr, ihst, ihge, iheq⟩ := ih s1 (by omega) hw (bufAdd_lt _ _)
    refine ⟨by rw [hres, ihw], by rw [hres]; exact ihr, ?_, ?_, ?_⟩
    · rw [hres, ihst, hstored1', hcons]
      simp
    · intro hge
      rw [hres]
      apply ihge
      show (storedBytes s1).count 10 ≤ s1.num_newlines
      have : s1.num_newlines = if c = 10 then s.num_newlines - 1 else s.num_newlines := rfl
      rw [this]
      by_cases hb : c = 10
      · rw [if_pos hb]
        rw [hcount, if_pos hb] at hge
        omega
      · rw [if_neg hb]
        rw [hcount, if_neg hb] at hge
        omega
    · intro heq
      rw [hres]
      apply iheq
      show s1.num_newlines = (storedBytes s1).count 10
      have : s1.num_newlines = if c = 10 then s.num_newlines - 1 else s.num_newlines := rfl
      rw [this]
      by_cases hb : c = 10
      · rw [if_pos hb]
        rw [hcount, if_pos hb] at heq
        omega
      · rw [if_neg hb]
        rw [hcount, if_neg hb] at heq
        omega

theorem read_line_state (s : Buf) (line : List Nat) (hw : s.wpos < 1024)
    (hr : s.rpos < 1024) :
    (s.read_line line).2.2 = s ∨
      (∃ i pre post, firstNl (storedBytes s) = some i ∧
        storedBytes s = pre ++ 10 :: post ∧ pre.length = i ∧ (10 : Nat) ∉ pre ∧
        (s.read_line line).2.2 =
          { s with rpos := bufAdd s.rpos (i + 1),
                   num_newlines := s.num_newlines - 1 } ∧
        storedBytes (s.read_line line).2.2 = post) := by
  by_cases hcond : s.num_newlines = 0 ∨ s.rpos = s.wpos
  · left
    unfold Buf.read_line
    rw [if_pos hcond]
  · cases hfn : firstNl (storedBytes s) with
    | none =>
      left
      unfold Buf.read_line
      rw [if_neg hcond, hfn]
    | some i =>
      obtain ⟨pre, post, hsplit, hlen, hpre⟩ := firstNl_some_spec _ _ hfn
      have hstored_len := storedBytes_length s
      have hi1 : i + 1 ≤ s.read_available := by
        rw [hsplit] at hstored_len
        simp at hstored_len
        omega
      have h22 : (s.read_line line).2.2 =
          { s with rpos := bufAdd s.rpos (i + 1),
                   num_newlines := s.num_newlines - 1 } := by
        unfold Buf.read_line
        rw [if_neg hcond, hfn]
        dsimp only
        cases hv : validate_line (line ++ (storedBytes s).take i) <;>
          simp [hv, bufAdd_bufAdd]
      have hst : storedBytes (s.read_line line).2.2 = post := by
        rw [h22]
        show storedBytes ({ s with rpos := bufAdd s.rpos (i + 1) } : Buf) = post
        rw [(storedBytes_advance s (i + 1) hw hr hi1).2, hsplit]
        have hshape : pre ++ 10 :: post = (pre ++ [10]) ++ post := by simp
        rw [hshape, List.drop_left' (by simp [hlen])]
      right
      exact ⟨i, pre, post, rfl, hsplit, hlen, hpre, h22, hst⟩

theorem BufInv_read_line (s : Buf) (line : List Nat) (hInv : BufInv s) :
    BufInv (s.read_line line).2.2 := by
  obtain ⟨hw, hr, hnn⟩ := hInv
  rcases read_line_state s line hw hr with h |
    ⟨i, pre, post, hfn, hsplit, hlen, hpre, h22, hst⟩
  · rw [h]
    exact ⟨hw, hr, hnn⟩
  · have hcnt : (storedBytes s).count 10 = post.count 10 + 1 := by
      rw [hsplit]
      simp [List.count_append, List.count_cons, List.count_eq_zero.mpr hpre]
    refine ⟨by rw [h22]; exact hw, by rw [h22]; exact bufAdd_lt _ _, ?_⟩
    rw [hst, h22]
    show s.num_newlines - 1 = post.count 10
    omega

theorem BufGe_read_line (s : Buf) (line : List Nat) (hw : s.wpos < 1024)
    (hr : s.rpos < 1024) (hnn : (storedBytes s).count 10 ≤ s.num_newlines) :
    (s.read_line line).2.2.wpos < 1024 ∧ (s.read_line line).2.2.rpos < 1024 ∧
      (storedBytes (s.read_line line).2.2).count 10 ≤
        (s.read_line line).2.2.num_newlines := by
  rcases read_line_state s line hw hr with h |
    ⟨i, pre, post, hfn, hsplit, hlen, hpre, h22, hst⟩
  · rw [h]
    exact ⟨hw, hr, hnn⟩
  · have hcnt : (storedBytes s).count 10 = post.count 10 + 1 := by
      rw [hsplit]
      simp [List.count_append, List.count_cons, List.count_eq_zero.mpr hpre]
    refine ⟨by rw [h22]; exact hw, by rw [h22]; exact bufAdd_lt _ _, ?_⟩
    rw [hst, h22]
    show post.count 10 ≤ s.num_newlines - 1
    omega

theorem BufInv_read_buf (s : Buf) (len : Nat) (hInv : BufInv s) :
    BufInv (s.read_buf len).2 := by
  obtain ⟨hw, hr, hnn⟩ := hInv
  obtain ⟨h1, h2, h3, h4, h5⟩ :=
    readBufLoop_state (min len s.read_available) s (Nat.min_le_right _ _) hw hr
  exact ⟨by rw [show (s.read_buf len).2.wpos = s.wpos from h1]; exact hw, h2, h5 hnn⟩

theorem BufGe_read_buf (s : Buf) (len : Nat) (hw : s.wpos < 1024)
    (hr : s.rpos < 1024) (hnn : (storedBytes s).count 10 ≤ s.num_newlines) :
    (s.read_buf len).2.wpos < 1024 ∧ (s.read_buf len).2.rpos < 1024 ∧
      (storedBytes (s.read_buf len).2).count 10 ≤ (s.read_buf len).2.num_newlines := by
  obtain ⟨h1, h2, h3, h4, h5⟩ :=
    readBufLoop_state (min len s.read_available) s (Nat.min_le_right _ _) hw hr
  exact ⟨by rw [show (s.read_buf len).2.wpos = s.wpos from h1]; exact hw, h2, h4 hnn⟩

theorem reachable_ge (s : Buf) (h : Reachable s) :
    s.wpos < 1024 ∧ s.rpos < 1024 ∧ (storedBytes s).count 10 ≤ s.num_newlines := by
  induction h with
  | init =>
    exact ⟨by simp [Buf.init], by simp [Buf.init],
      by simp [storedBytes, Buf.init, Buf.read_available]⟩
  | push s b _ ih => exact BufInvGe_push s b ih.1 ih.2.1 ih.2.2
  | read_line s line _ ih => exact BufGe_read_line s line ih.1 ih.2.1 ih.2.2
  | read_buf s len _ ih => exact BufGe_read_buf s len ih.1 ih.2.1 ih.2.2
  | clear s _ =>
    obtain ⟨hw, hr, heq⟩ := BufInv_clear s
    exact ⟨hw, hr, Nat.le_of_eq heq.symm⟩

/-- `k` pushes of the byte `'a'` (97) into the fresh buffer. -/
def pushedA : Nat → Buf
  | 0 => Buf.init
  | k + 1 => (pushedA k).push 97

theorem pushedA_reachable (k : Nat) : Reachable (pushedA k) := by
  induction k with
  | zero => exact Reachable.init
  | succ k ih => exact Reachable.push _ _ ih

theorem pushedA_eq (k : Nat) (hk : k ≤ 1023) :
    pushedA k = ⟨k, 0, 0, fun j => if j.val < k then 97 else 0⟩ := by
  induction k with
  | zero =>
    show Buf.init = _
    unfold Buf.init
    congr 1
  | succ k ih =>
    unfold pushedA
    rw [ih (by omega)]
    have hwn : bufAdd k 1 = k + 1 := by
      unfold bufAdd
      omega
    unfold Buf.push
    dsimp only
    rw [if_neg (by omega : ¬(97 : Nat) = 10)]
    rw [if_neg (by rw [hwn]; omega)]
    have hbuf : (fun j : Fin 1024 =>
        if j.val = k % 1024 then (97 : Nat) else if j.val < k then 97 else 0) =
        (fun j : Fin 1024 => if j.val < k + 1 then 97 else 0) := by
      funext j
      by_cases hj : j.val = k % 1024
      · rw [if_pos hj, if_pos (by omega)]
      · rw [if_neg hj]
        by_cases hj2 : j.val < k
        · rw [if_pos hj2, if_pos (by omega)]
        · rw [if_neg hj2, if_neg (by omega)]
    rw [hwn, hbuf]

/-- C1 counterexample: push 1023 letters `a` into the fresh buffer (making
it full), then push a newline.  The newline byte is dropped, but
`num_newlines` is still incremented (the increment sits outside the
full-buffer guard in `Buffer::push`), so the reachable state that results
has a pending-newline counter of 1 while storing no newline at all. -/
theorem buffer_invariant_cex :
    Reachable ((pushedA 1023).push 10) ∧
      ((pushedA 1023).push 10).num_newlines ≠
        (storedBytes ((pushedA 1023).push 10)).count 10 := by
  refine ⟨Reachable.push _ _ (pushedA_reachable 1023), ?_⟩
  rw [pushedA_eq 1023 (by omega)]
  rw [push_full _ _ (by decide)]
  have hcnt : (storedBytes
      ({ wpos := 1023, rpos := 0, num_newlines := if (10 : Nat) = 10 then 0 + 1 else 0,
         buffer := fun j => if j.val < 1023 then 97 else 0 } : Buf)).count 10 = 0 := by
    apply List.count_eq_zero.mpr
    intro hm
    obtain ⟨i, hi, heq⟩ := List.mem_map.mp hm
    rw [List.mem_range] at hi
    unfold Buf.byteAt bufAdd at heq
    dsimp only at heq
    rw [if_pos (by simp [Buf.read_available] at hi; omega)] at heq
    omega
  rw [hcnt]
  simp

/-- C1 (amended): for every reachable state of the ring buffer
`available ≤ capacity - 1 = 1023` and the pending-newline counter is at
least the number of stored `'\n'` bytes; the exact-equality invariant
`BufInv` is preserved by `read_line`, `read_buf` and `clear`
unconditionally, and by `push` except in the single case of pushing a
`'\n'` byte into a full buffer, where the byte is dropped but the counter
is still incremented. -/
theorem buffer_invariant :
    (∀ s : Buf, Reachable s →
       s.read_available ≤ 1023 ∧ (storedBytes s).count 10 ≤ s.num_newlines) ∧
    (∀ (s : Buf) (b : Nat), BufInv s → (bufAdd s.wpos 1 = s.rpos → b ≠ 10) →
       BufInv (s.push b)) ∧
    (∀ (s : Buf) (line : List Nat), BufInv s → BufInv (s.read_line line).2.2) ∧
    (∀ (s : Buf) (len : Nat), BufInv s → BufInv (s.read_buf len).2) ∧
    (∀ s : Buf, BufInv s → BufInv s.clear) := by
  refine ⟨?_, BufInv_push, BufInv_read_line, BufInv_read_buf, fun s _ => BufInv_clear s⟩
  intro s hs
  obtain ⟨hw, hr, hge⟩ := reachable_ge s hs
  exact ⟨read_available_le s hw hr, hge⟩

/-- Witness for C1 at the freshly initialised buffer. -/
theorem buffer_invariant_witness :
    Buf.init.read_available ≤ 1023 ∧
      (storedBytes Buf.init).count 10 ≤ Buf.init.num_newlines :=
  buffer_invariant.1 Buf.init Reachable.init

/-- C10: when the stored bytes contain no newline, `read_line` returns
`false` and leaves the entire buffer state — read index, write index,
newline counter and storage — untouched; the output string is cleared
exactly when the scan ran (pending-newline counter nonzero and buffer
nonempty) and is returned unmodified when the fast-reject path was taken. -/
theorem read_line_no_newline (s : Buf) (line : List Nat)
    (h : (storedBytes s).count 10 = 0) :
    s.read_line line =
      (false, if s.num_newlines = 0 ∨ s.rpos = s.wpos then line else [], s) := by
  have hnm : (10 : Nat) ∉ storedBytes s := List.count_eq_zero.mp h
  have hfn : firstNl (storedBytes s) = none := firstNl_of_not_mem _ hnm
  unfold Buf.read_line
  by_cases hcond : s.num_newlines = 0 ∨ s.rpos = s.wpos
  · rw [if_pos hcond, if_pos hcond]
  · rw [if_neg hcond, if_neg hcond, hfn]

/-- A concrete buffer holding one byte `a` with a (stale) pending-newline
count of 1, as left behind by a dropped overflow newline. -/
def bufW : Buf := ⟨1, 0, 1, fun _ => 97⟩

/-- Witness for C10 at `bufW` with a nonempty output string: the scan runs
(counter nonzero, buffer nonempty), finds no newline, clears the output
and leaves the state untouched. -/
theorem read_line_no_newline_witness :
    (storedBytes bufW).count 10 = 0 ∧
      bufW.read_line [72] =
        (false, if bufW.num_newlines = 0 ∨ bufW.rpos = bufW.wpos then [72] else [],
         bufW) :=
  ⟨by decide, read_line_no_newline bufW [72] (by decide)⟩

/-- `FwConstants` (ps5_uart.cpp:77): per-firmware exploit constants. -/
structure FwConstants where
  ucmd_ua_buf_addr : Nat
  shellcode : List Nat
deriving DecidableEq

/-- `fw_constants_map` (ps5_uart.cpp:82): version string (as bytes) to
constants; addresses and shellcode bytes are exactly the source table. -/
def fw_constants_map : List (List Nat × FwConstants) := [
  ([69, 49, 69, 32, 48, 48, 48, 49, 32, 48, 48, 48, 48, 32, 48, 48, 48, 52, 32, 49, 51, 68, 48],
   ⟨1532648,
     [0, 181, 71, 242, 0, 96, 192, 242, 21, 0, 67, 246, 224, 113, 192,
      242, 23, 1, 8, 96, 1, 32, 69, 242, 36, 113, 192, 242, 23, 1,
      8, 96, 64, 246, 149, 113, 192, 242, 18, 1, 136, 71, 0, 189]⟩),
  ([69, 49, 69, 32, 48, 48, 48, 49, 32, 48, 48, 48, 50, 32, 48, 48, 48, 51, 32, 49, 53, 56, 48],
   ⟨1564216,
     [0, 181, 74, 242, 48, 48, 192, 242, 21, 0, 74, 242, 236, 97, 192,
      242, 23, 1, 8, 96, 1, 32, 77, 242, 64, 33, 192, 242, 23, 1,
      8, 96, 66, 246, 49, 1, 192, 242, 18, 1, 136, 71, 0, 189]⟩),
  ([69, 49, 69, 32, 48, 48, 48, 49, 32, 48, 48, 48, 52, 32, 48, 48, 48, 50, 32, 49, 55, 53, 50],
   ⟨1592732,
     [0, 181, 77, 242, 124, 48, 192, 242, 21, 0, 65, 242, 192, 17, 192,
      242, 24, 1, 8, 96, 1, 32, 67, 246, 20, 113, 192, 242, 24, 1,
      8, 96, 68, 242, 9, 49, 192, 242, 18, 1, 136, 71, 0, 189]⟩),
  ([69, 49, 69, 32, 48, 48, 48, 49, 32, 48, 48, 48, 56, 32, 48, 48, 48, 50, 32, 49, 66, 48, 51],
   ⟨1648156,
     [0, 181, 69, 246, 232, 32, 192, 242, 22, 0, 78, 242, 144, 33, 192,
      242, 24, 1, 8, 96, 1, 32, 65, 242, 48, 113, 192, 242, 25, 1,
      8, 96, 71, 246, 189, 17, 192, 242, 18, 1, 136, 71, 0, 189]⟩)]

/-! ## The exploit session `UcmdClientEmc` (ps5_uart.cpp:250)

The UART/host hardware is abstracted by an oracle: `script` is the
sequence of `Result`s that successive `cmd_send_recv` calls will read
back (an exhausted script reads a timeout), and `events` records the
observable actions the session performs, in order.  Timing delays, the
filler bytes of `write_oob` (both governed by `ChipConsts`) and line-level
framing have no observable effect at this level; a raw out-of-bounds
corruption write is recorded as the 4-byte value it delivers. -/

/-- Observable actions of the session. -/
inductive Ev where
  | cmdRecv (line : List Nat)
  | cmdPost (line : List Nat)
  | puareq1 (idx : Nat)
  | puareq2 (idx : Nat) (chunk : List Nat)
  | oobWrite (value : List Nat)
  | nakEv
  | clearEv
  | emcResetEv
deriving DecidableEq

/-- Session state: response oracle, cached firmware constants
(`fw_consts_valid_` / `fw_consts_`), the reset-detect GPIO sample, and
the event trace. -/
structure SessState where
  script : List Result
  fwValid : Bool
  fwConsts : FwConstants
  resetIsReset : Bool
  events : List Ev
deriving DecidableEq

def logEv (e : Ev) (s : SessState) : SessState := { s with events := s.events ++ [e] }

/-- `cmd_send_recv` (ps5_uart.cpp:486): send a checksummed command, wait
for its echo, then read lines until an Ok/Ng result or timeout; the
outcome is the next oracle entry. -/
def cmd_send_recv (e : Ev) (s : SessState) : Result × SessState :=
  match s.script with
  | [] => (Result.new_timeout, logEv e s)
  | r :: rest => (r, logEv e { s with script := rest })

/-- `nak` (ps5_uart.cpp:461): writes `\x15` to reset the rx state machine. -/
def nak (s : SessState) : SessState := logEv Ev.nakEv s

/-- `version` (ps5_uart.cpp:497); the byte list spells `version`. -/
def version (s : SessState) : Result × SessState :=
  cmd_send_recv (Ev.cmdRecv [118, 101, 114, 115, 105, 111, 110]) s

/-- `getserialno` (ps5_uart.cpp:498); the byte list spells `getserialno`. -/
def getserialno (s : SessState) : Result × SessState :=
  cmd_send_recv (Ev.cmdRecv [103, 101, 116, 115, 101, 114, 105, 97, 108, 110, 111]) s

/-- `puareq1` (ps5_uart.cpp:500): sends `puareq1 <idx:hex>`. -/
def puareq1 (idx : Nat) (s : SessState) : Bool × SessState :=
  let r := cmd_send_recv (Ev.puareq1 idx) s
  (r.1.is_success, r.2)

/-- `puareq2` (ps5_uart.cpp:507): sends `puareq2 <idx:hex> <chunk:hex>`. -/
def puareq2 (idx : Nat) (chunk : List Nat) (s : SessState) : Bool × SessState :=
  let r := cmd_send_recv (Ev.puareq2 idx chunk) s
  (r.1.is_success, r.2)

/-- `is_unlocked` (ps5_uart.cpp:597): NAK then `getserialno`. -/
def is_unlocked (s : SessState) : Result × SessState := getserialno (nak s)

/-- `resolve_constants` (ps5_uart.cpp:513). -/
def resolve_constants (s : SessState) : Result × SessState :=
  if s.fwValid then (Result.new_success, s)
  else
    let vr := version s
    if vr.1.is_success then
      match (fw_constants_map.find? (fun p => decide (p.1 = vr.1.response_))).map
          Prod.snd with
      | some fc => (Result.new_success, { vr.2 with fwValid := true, fwConsts := fc })
      | none => (Result.new_ng kFwConstsVersionUnknown vr.1.response_, vr.2)
    else (Result.new_ng kFwConstsVersionFailed vr.1.format, vr.2)

/-- `align_up` (ps5_uart.cpp:553): `rem = x % align; x + (align - rem)`. -/
def align_up (x align : Nat) : Nat := x + (align - x % align)

/-- Little-endian serialisation of a `u32` (the target is ARM, LE). -/
def le32 (v : Nat) : List Nat :=
  [v % 256, v / 2 ^ 8 % 256, v / 2 ^ 16 % 256, v / 2 ^ 24 % 256]

/-- The 28-byte `payload_t` prefix of `craft_and_set_payload`
(ps5_uart.cpp:565): two 12-byte `cmd_entry_t`s (`entries[0]` pointing at
the embedded command name at offset 24 and the shellcode at offset 28
with the thumb bit set, mask `0xf`; `entries[1]` zero), the command name
`"A\0"`, and two alignment padding bytes (`alignas(4) shellcode[0]`). -/
def payload_header (addr : Nat) : List Nat :=
  le32 ((addr + 24) % 2 ^ 32) ++ le32 (((addr + 28) % 2 ^ 32) ||| 1) ++ le32 15 ++
    List.replicate 12 0 ++ [65, 0] ++ [0, 0]

/-- The payload built by `craft_and_set_payload` (ps5_uart.cpp:587):
header, shellcode, then zero padding up to `align_up(payload_len, 50)`. -/
def crafted_payload (fw : FwConstants) : List Nat :=
  payload_header fw.ucmd_ua_buf_addr ++ fw.shellcode ++
    List.replicate (align_up (28 + fw.shellcode.length) 50 -
      (28 + fw.shellcode.length)) 0

/-- The chunk loop of `set_payload` (ps5_uart.cpp:543). -/
def set_payload_loop (payload : List Nat) (pos idx : Nat) (s : SessState) :
    Result × SessState :=
  if pos < payload.length then
    let chunk := (payload.drop pos).take 50
    let r := puareq2 idx chunk s
    if r.1 then set_payload_loop payload (pos + 50) (idx + 1) r.2
    else (Result.new_ng kSetPayloadPuareq2Failed [], r.2)
  else (Result.new_success, s)
termination_by payload.length - pos

/-- `set_payload` (ps5_uart.cpp:532). -/
def set_payload (payload : List Nat) (s : SessState) : Result × SessState :=
  let s1 := nak s
  let r1 := puareq1 0 s1
  if r1.1 then set_payload_loop payload 0 0 r1.2
  else (Result.new_ng kSetPayloadPuareq1Failed [], r1.2)

/-- `craft_and_set_payload` (ps5_uart.cpp:559); the hard cap is
`payload_max_len = 350`. -/
def craft_and_set_payload (s : SessState) : Result × SessState :=
  if 28 + s.fwConsts.shellcode.length > 350 then
    (Result.new_ng kSetPayloadTooLarge [], s)
  else set_payload (crafted_payload s.fwConsts) s

/-- The little-endian bytes of the 32-bit target value, as extracted by
the first loop of `overwrite_cmd_table_ptr` (`(write_val >> (i*8)) & 0xff`). -/
def targetBytes (v : Nat) : List Nat :=
  (List.range 4).map (fun i => v / 2 ^ (8 * i) % 256)

/-- The reserved-control-byte check (ps5_uart.cpp:663):
backspace 8, CR 13, LF 10, NAK 0x15 = 21. -/
def hasReservedByte (v : Nat) : Bool :=
  (targetBytes v).any (fun b => b == 8 || b == 13 || b == 10 || b == 21)

/-- ASCII printable range `[0x20, 0x80)` that terminates the overwrite. -/
def isPrintable (b : Nat) : Bool := decide (32 ≤ b) && decide (b < 128)

/-- The pre-write built for a printable byte at `pos`
(ps5_uart.cpp:673): bytes `0..pos` zeroed, the rest kept. -/
def zeroUpTo (pos : Nat) (target : List Nat) : List Nat :=
  (List.range 4).map (fun j => if j ≤ pos then 0 else target.getD j 0)

/-- `overwrite_cmd_table_ptr` (ps5_uart.cpp:657) reduced to the sequence
of 4-byte values it hands to `write_oob`: `none` when the target value
contains a reserved control byte (the function returns `false` before any
write); otherwise one zero-padded pre-write per printable byte, scanning
positions most-significant-first (`pos = size-1-i`), followed by the
final write of the full target. -/
def overwrite_plan (write_val : Nat) : Option (List (List Nat)) :=
  if hasReservedByte write_val then none
  else
    some (((List.range 4).reverse.filter
        (fun pos => isPrintable ((targetBytes write_val).getD pos 0))).map
        (fun pos => zeroUpTo pos (targetBytes write_val)) ++
      [targetBytes write_val])

/-- `write_oob` (ps5_uart.cpp:603): NAK, the raw corruption write (filler
run, calibrated delay, cursor-advance + value + index reset + NAK — all
summarised by the delivered 4-byte value), then `uart_rx_.clear()`. -/
def write_oob (value : List Nat) (s : SessState) : SessState :=
  logEv Ev.clearEv (logEv (Ev.oobWrite value) (logEv Ev.nakEv s))

/-- `overwrite_cmd_table_ptr` (ps5_uart.cpp:657) acting on the session. -/
def overwrite_cmd_table_ptr (s : SessState) : Bool × SessState :=
  match overwrite_plan s.fwConsts.ucmd_ua_buf_addr with
  | none => (false, s)
  | some ws => (true, ws.foldl (fun t w => write_oob w t) s)

/-- `exploit_setup` (ps5_uart.cpp:684). -/
def exploit_setup (s : SessState) : Result × SessState :=
  let r1 := resolve_constants s
  if r1.1.is_success then
    let r2 := craft_and_set_payload r1.2
    if r2.1.is_success then
      let r3 := overwrite_cmd_table_ptr r2.2
      if r3.1 then (Result.new_success, r3.2)
      else (Result.new_ng kFwConstsInvalid [], r3.2)
    else r2
  else r1

/-- `cmd_send(hax_cmd_name_)` at ps5_uart.cpp:717 — fire the embedded
command `"A"`; the echo result is ignored. -/
def cmd_send_post (line : List Nat) (s : SessState) : SessState :=
  logEv (Ev.cmdPost line) s

/-- `exploit_trigger` (ps5_uart.cpp:703). -/
def exploit_trigger (s : SessState) : Result × SessState :=
  let s1 := nak s
  let r1 := version s1
  if r1.1.is_ng_status kUcmdUnknownCmd then
    is_unlocked (cmd_send_post [65] r1.2)
  else (Result.new_ng kExploitVersionUnexpected r1.1.format, r1.2)

/-- `autorun` (ps5_uart.cpp:722). -/
def autorun (s : SessState) : Result × SessState :=
  if s.resetIsReset then (Result.new_ng kEmcInReset [], s)
  else
    let s1 := logEv Ev.clearEv s
    let r1 := is_unlocked s1
    if r1.1.is_success then (Result.new_success, r1.2)
    else
      let r2 := exploit_setup r1.2
      if r2.1.is_ng then r2
      else
        let r3 := exploit_trigger r2.2
        if r3.1.is_success then (Result.new_success, r3.2)
        else (Result.new_ng kExploitFailedEmcReset [], logEv Ev.emcResetEv r3.2)

/-- The out-of-bounds corruption writes recorded in a trace. -/
def oobWrites (evs : List Ev) : List (List Nat) :=
  evs.filterMap (fun e => match e with | Ev.oobWrite w => some w | _ => none)

/-- The chunk-delivery requests recorded in a trace. -/
def puareq2Events (evs : List Ev) : List (Nat × List Nat) :=
  evs.filterMap (fun e => match e with | Ev.puareq2 i c => some (i, c) | _ => none)

/-- C9: `align_up x a` equals `x + (a - x mod a)` for all inputs, is never
the identity for any positive alignment, and in particular maps a payload
length that is already a multiple of 50 to `length + 50`; the crafted
payload then ends in a full extra 50-byte all-zero chunk. -/
theorem align_up_spec :
    (∀ x align : Nat, align_up x align = x + (align - x % align)) ∧
    (∀ x align : Nat, 0 < align → align_up x align ≠ x) ∧
    (∀ x : Nat, x % 50 = 0 → align_up x 50 = x + 50) ∧
    (∀ fw : FwConstants, (28 + fw.shellcode.length) % 50 = 0 →
       crafted_payload fw = payload_header fw.ucmd_ua_buf_addr ++ fw.shellcode ++
         List.replicate 50 0) := by
  refine ⟨fun x a => rfl, ?_, ?_, ?_⟩
  · intro x a ha
    unfold align_up
    have := Nat.mod_lt x ha
    omega
  · intro x hx
    unfold align_up
    omega
  · intro fw hlen
    unfold crafted_payload
    rw [show align_up (28 + fw.shellcode.length) 50 - (28 + fw.shellcode.length) = 50
      from by unfold align_up; omega]

/-- Witness for C9 at the aligned length 100 and a concrete 22-byte
shellcode (payload length 50). -/
theorem align_up_spec_witness :
    ((100 : Nat) % 50 = 0 ∧ align_up 100 50 = 100 + 50) ∧
      ((28 + (List.replicate 22 144 : List Nat).length) % 50 = 0 ∧
        crafted_payload ⟨4096, List.replicate 22 144⟩ =
          payload_header 4096 ++ List.replicate 22 144 ++ List.replicate 50 0) :=
  ⟨⟨by decide, align_up_spec.2.2.1 100 (by decide)⟩,
   ⟨by decide, align_up_spec.2.2.2 ⟨4096, List.replicate 22 144⟩ (by decide)⟩⟩

/-- C8: when the reset guard passes and the already-unlocked probe
(`is_unlocked`, i.e. NAK + `getserialno`) reads back success, `autorun`
returns success having performed only the buffer flush, the NAK and the
single `getserialno` command: no version query, no payload delivery, no
out-of-bounds write, no trigger and no forced reset appear in the trace,
and only one oracle response is consumed. -/
theorem autorun_idempotent (s : SessState) (r0 : Result) (rest : List Result)
    (hreset : s.resetIsReset = false)
    (hscript : s.script = r0 :: rest)
    (hok : r0.is_success = true) :
    autorun s = (Result.new_success,
      { s with script := rest,
               events := s.events ++ [Ev.clearEv, Ev.nakEv,
                 Ev.cmdRecv [103, 101, 116, 115, 101, 114, 105, 97, 108, 110, 111]] }) := by
  simp [autorun, hreset, is_unlocked, nak, getserialno, cmd_send_recv, hscript,
    logEv, hok]

/-- Witness for C8 on a concrete session whose first oracle answer is
`OK 00000000`. -/
theorem autorun_idempotent_witness :
    autorun ⟨[Result.new_ok kSuccess [53, 55]], false, ⟨0, []⟩, false, []⟩ =
      (Result.new_success,
       ⟨[], false, ⟨0, []⟩, false,
        [Ev.clearEv, Ev.nakEv,
         Ev.cmdRecv [103, 101, 116, 115, 101, 114, 105, 97, 108, 110, 111]]⟩) :=
  autorun_idempotent _ (Result.new_ok kSuccess [53, 55]) [] rfl rfl (by decide)

/-- C2 counterexample: the target value `0x00012221` (no reserved bytes)
has two printable bytes, `0x21` and `0x22`; `overwrite_cmd_table_ptr`
then performs three `write_oob` calls — one pre-write per printable byte
plus the final full write — not two, refuting the claim that a printable
byte makes the corruption be "performed twice". -/
theorem overwrite_twice_cex :
    hasReservedByte 74273 = false ∧
      ((targetBytes 74273).any (fun b => isPrintable b)) = true ∧
      (overwrite_plan 74273).map List.length = some 3 ∧
      (overwrite_plan 74273).map List.length ≠ some 2 := by decide

/-- C2 (amended): for a target value free of reserved control bytes the
corruption sequence scans the target's bytes most-significant-first and
issues one `write_oob` pre-write per printable byte — its leading bytes,
up to and including the printable position, zeroed — followed by a final
`write_oob` of the full 4-byte value; when exactly one byte is printable
the corruption is performed exactly twice: the zero-padded pre-write,
then the full target value. -/
theorem overwrite_plan_spec (v : Nat) (hres : hasReservedByte v = false) :
    overwrite_plan v =
      some (((List.range 4).reverse.filter
          (fun pos => isPrintable ((targetBytes v).getD pos 0))).map
          (fun pos => zeroUpTo pos (targetBytes v)) ++ [targetBytes v]) ∧
    (∀ pos, zeroUpTo pos (targetBytes v) =
        (List.range 4).map
          (fun j => if j ≤ pos then 0 else (targetBytes v).getD j 0)) ∧
    (∀ pos, pos < 4 → isPrintable ((targetBytes v).getD pos 0) = true →
       (∀ q, q < 4 → q ≠ pos → isPrintable ((targetBytes v).getD q 0) = false) →
       overwrite_plan v = some [zeroUpTo pos (targetBytes v), targetBytes v]) := by
  refine ⟨by simp [overwrite_plan, hres], fun pos => rfl, ?_⟩
  intro pos hpos hp hq
  unfold overwrite_plan
  rw [if_neg (by simp [hres])]
  interval_cases pos
  · have h3 := hq 3 (by omega) (by omega)
    have h2 := hq 2 (by omega) (by omega)
    have h1 := hq 1 (by omega) (by omega)
    simp only [List.getD_eq_getElem?_getD] at hp h1 h2 h3
    simp [List.range_succ, hp, h1, h2, h3]
  · have h3 := hq 3 (by omega) (by omega)
    have h2 := hq 2 (by omega) (by omega)
    have h0 := hq 0 (by omega) (by omega)
    simp only [List.getD_eq_getElem?_getD] at hp h0 h2 h3
    simp [List.range_succ, hp, h0, h2, h3]
  · have h3 := hq 3 (by omega) (by omega)
    have h1 := hq 1 (by omega) (by omega)
    have h0 := hq 0 (by omega) (by omega)
    simp only [List.getD_eq_getElem?_getD] at hp h0 h1 h3
    simp [List.range_succ, hp, h0, h1, h3]
  · have h2 := hq 2 (by omega) (by omega)
    have h1 := hq 1 (by omega) (by omega)
    have h0 := hq 0 (by omega) (by omega)
    simp only [List.getD_eq_getElem?_getD] at hp h0 h1 h2
    simp [List.range_succ, hp, h0, h1, h2]

/-- Witness for C2 at the table address `0x1762e8` (bytes `e8 62 17 00`,
printable only at position 1): the corruption is performed exactly twice. -/
theorem overwrite_plan_spec_witness :
    hasReservedByte 1532648 = false ∧
      overwrite_plan 1532648 =
        some [zeroUpTo 1 (targetBytes 1532648), targetBytes 1532648] :=
  ⟨by decide,
   (overwrite_plan_spec 1532648 (by decide)).2.2 1 (by decide) (by decide)
     (by decide)⟩

theorem new_ok_success (x : List Nat) : (Result.new_ok kSuccess x).is_success = true := rfl

theorem crafted_payload_length (fw : FwConstants) (h : fw.shellcode.length = 159) :
    (crafted_payload fw).length = 200 := by
  simp [crafted_payload, payload_header, le32, align_up, h]

/-- C7: when the shellcode makes the crafted payload (28-byte header plus
shellcode) 187 bytes long, the payload is padded to 200 bytes — the next
multiple of 50 — the 350-byte hard cap is respected, and `set_payload`
issues exactly four index-tagged `puareq2` chunk deliveries of (at most)
50 bytes each when all are acknowledged; the first unacknowledged chunk
aborts the delivery with `kSetPayloadPuareq2Failed`. -/
theorem craft_and_set_payload_chunks (s : SessState)
    (hsc : s.fwConsts.shellcode.length = 159)
    (r0 r1 r2 r3 r4 : Result) (rest : List Result)
    (hscript : s.script = r0 :: r1 :: r2 :: r3 :: r4 :: rest)
    (h0 : r0.is_success = true) :
    (28 + s.fwConsts.shellcode.length ≤ 350 ∧
     (crafted_payload s.fwConsts).length = 200 ∧
     craft_and_set_payload s = set_payload (crafted_payload s.fwConsts) s) ∧
    (∀ i, i < 4 → (((crafted_payload s.fwConsts).drop (50 * i)).take 50).length = 50) ∧
    (r1.is_success = true → r2.is_success = true → r3.is_success = true →
     r4.is_success = true →
       (craft_and_set_payload s).1 = Result.new_success ∧
       puareq2Events (craft_and_set_payload s).2.events =
         puareq2Events s.events ++
           [(0, (crafted_payload s.fwConsts).take 50),
            (1, ((crafted_payload s.fwConsts).drop 50).take 50),
            (2, ((crafted_payload s.fwConsts).drop 100).take 50),
            (3, ((crafted_payload s.fwConsts).drop 150).take 50)]) ∧
    (r1.is_success = false →
       (craft_and_set_payload s).1 = Result.new_ng kSetPayloadPuareq2Failed [] ∧
       puareq2Events (craft_and_set_payload s).2.events =
         puareq2Events s.events ++ [(0, (crafted_payload s.fwConsts).take 50)]) ∧
    (r1.is_success = true → r2.is_success = false →
       (craft_and_set_payload s).1 = Result.new_ng kSetPayloadPuareq2Failed [] ∧
       puareq2Events (craft_and_set_payload s).2.events =
         puareq2Events s.events ++
           [(0, (crafted_payload s.fwConsts).take 50),
            (1, ((crafted_payload s.fwConsts).drop 50).take 50)]) ∧
    (r1.is_success = true → r2.is_success = true → r3.is_success = false →
       (craft_and_set_payload s).1 = Result.new_ng kSetPayloadPuareq2Failed [] ∧
       puareq2Events (craft_and_set_payload s).2.events =
         puareq2Events s.events ++
           [(0, (crafted_payload s.fwConsts).take 50),
            (1, ((crafted_payload s.fwConsts).drop 50).take 50),
            (2, ((crafted_payload s.fwConsts).drop 100).take 50)]) ∧
    (r1.is_success = true → r2.is_success = true → r3.is_success = true →
     r4.is_success = false →
       (craft_and_set_payload s).1 = Result.new_ng kSetPayloadPuareq2Failed [] ∧
       puareq2Events (craft_and_set_payload s).2.events =
         puareq2Events s.events ++
           [(0, (crafted_payload s.fwConsts).take 50),
            (1, ((crafted_payload s.fwConsts).drop 50).take 50),
            (2, ((crafted_payload s.fwConsts).drop 100).take 50),
            (3, ((crafted_payload s.fwConsts).drop 150).take 50)]) := by
  have hclen : (crafted_payload s.fwConsts).length = 200 :=
    crafted_payload_length _ hsc
  have hcraft : craft_and_set_payload s = set_payload (crafted_payload s.fwConsts) s := by
    simp [craft_and_set_payload, hsc]
  refine ⟨⟨by omega, hclen, hcraft⟩, ?_, ?_, ?_, ?_, ?_, ?_⟩
  · intro i hi
    simp only [List.length_take, List.length_drop, hclen]
    interval_cases i <;> omega
  · intro h1 h2 h3 h4
    rw [hcraft]
    constructor <;>
      simp [set_payload, set_payload_loop, puareq1, puareq2, nak, cmd_send_recv,
        logEv, hscript, hclen, h0, h1, h2, h3, h4, puareq2Events,
        List.filterMap_append]
  · intro h1
    rw [hcraft]
    constructor <;>
      simp [set_payload, set_payload_loop, puareq1, puareq2, nak, cmd_send_recv,
        logEv, hscript, hclen, h0, h1, puareq2Events, List.filterMap_append]
  · intro h1 h2
    rw [hcraft]
    constructor <;>
      simp [set_payload, set_payload_loop, puareq1, puareq2, nak, cmd_send_recv,
        logEv, hscript, hclen, h0, h1, h2, puareq2Events, List.filterMap_append]
  · intro h1 h2 h3
    rw [hcraft]
    constructor <;>
      simp [set_payload, set_payload_loop, puareq1, puareq2, nak, cmd_send_recv,
        logEv, hscript, hclen, h0, h1, h2, h3, puareq2Events, List.filterMap_append]
  · intro h1 h2 h3 h4
    rw [hcraft]
    constructor <;>
      simp [set_payload, set_payload_loop, puareq1, puareq2, nak, cmd_send_recv,
        logEv, hscript, hclen, h0, h1, h2, h3, h4, puareq2Events,
        List.filterMap_append]

/-- A concrete delivery session: cached constants with a 159-byte
shellcode and five successful oracle answers. -/
def sessW7 : SessState :=
  ⟨[Result.new_ok kSuccess [], Result.new_ok kSuccess [], Result.new_ok kSuccess [],
    Result.new_ok kSuccess [], Result.new_ok kSuccess []],
   true, ⟨4096, List.replicate 159 7⟩, false, []⟩

set_option maxRecDepth 8192 in
/-- Witness for C7 on `sessW7`: all four 50-byte chunks delivered. -/
theorem craft_and_set_payload_chunks_witness :
    (craft_and_set_payload sessW7).1 = Result.new_success ∧
      puareq2Events (craft_and_set_payload sessW7).2.events =
        puareq2Events sessW7.events ++
          [(0, (crafted_payload sessW7.fwConsts).take 50),
           (1, ((crafted_payload sessW7.fwConsts).drop 50).take 50),
           (2, ((crafted_payload sessW7.fwConsts).drop 100).take 50),
           (3, ((crafted_payload sessW7.fwConsts).drop 150).take 50)] :=
  (craft_and_set_payload_chunks sessW7 (by decide) _ _ _ _ _ [] rfl
      (by decide)).2.2.1 (by decide) (by decide) (by decide) (by decide)

theorem new_success_success : Result.new_success.is_success = true := rfl

theorem write_oob_events (w : List Nat) (s : SessState) :
    (write_oob w s).events = s.events ++ [Ev.nakEv, Ev.oobWrite w, Ev.clearEv] := by
  simp [write_oob, logEv]

theorem oobWrites_append (a b : List Ev) :
    oobWrites (a ++ b) = oobWrites a ++ oobWrites b := by
  simp [oobWrites, List.filterMap_append]

theorem oobWrites_foldl (ws : List (List Nat)) : ∀ t : SessState,
    oobWrites ((ws.foldl (fun u w => write_oob w u) t).events) =
      oobWrites t.events ++ ws := by
  induction ws with
  | nil => intro t; simp
  | cons w ws ih =>
    intro t
    simp only [List.foldl_cons]
    rw [ih (write_oob w t), write_oob_events, oobWrites_append]
    simp [oobWrites]

theorem set_payload_200_ok (pl : List Nat) (hclen : pl.length = 200) (s : SessState)
    (hscript : s.script = [Result.new_ok kSuccess [], Result.new_ok kSuccess [],
      Result.new_ok kSuccess [], Result.new_ok kSuccess [],
      Result.new_ok kSuccess []]) :
    set_payload pl s = (Result.new_success,
      { s with script := [],
               events := s.events ++ [Ev.nakEv, Ev.puareq1 0,
                 Ev.puareq2 0 (pl.take 50), Ev.puareq2 1 ((pl.drop 50).take 50),
                 Ev.puareq2 2 ((pl.drop 100).take 50),
                 Ev.puareq2 3 ((pl.drop 150).take 50)] }) := by
  simp [set_payload, set_payload_loop, puareq1, puareq2, nak, cmd_send_recv, logEv,
    hscript, hclen, new_ok_success]

/-- C3: for every target address value whose four bytes include one of the
reserved control characters (backspace 8, CR 13, LF 10, NAK 0x15),
`overwrite_cmd_table_ptr` fails before any corruption write — no
`write_oob` value appears in the trace — and `exploit_setup` surfaces the
failure as Ng with `kFwConstsInvalid`; when no byte is reserved the
function proceeds to the write phase, performing the planned nonempty
write sequence and returning success. -/
theorem exploit_setup_reserved (addr : Nat) (sc : List Nat) (s : SessState)
    (hvalid : s.fwValid = true) (hfw : s.fwConsts = ⟨addr, sc⟩)
    (hsc : sc.length = 159)
    (hscript : s.script = [Result.new_ok kSuccess [], Result.new_ok kSuccess [],
      Result.new_ok kSuccess [], Result.new_ok kSuccess [],
      Result.new_ok kSuccess []]) :
    (hasReservedByte addr = true →
       (exploit_setup s).1 = Result.new_ng kFwConstsInvalid [] ∧
       oobWrites (exploit_setup s).2.events = oobWrites s.events) ∧
    (hasReservedByte addr = false →
       ∃ ws, overwrite_plan addr = some ws ∧ ws ≠ [] ∧
         (exploit_setup s).1 = Result.new_success ∧
         oobWrites (exploit_setup s).2.events = oobWrites s.events ++ ws) := by
  have hclen : (crafted_payload (⟨addr, sc⟩ : FwConstants)).length = 200 :=
    crafted_payload_length _ hsc
  have hresolve : resolve_constants s = (Result.new_success, s) := by
    simp [resolve_constants, hvalid]
  have hcraft : craft_and_set_payload s =
      set_payload (crafted_payload ⟨addr, sc⟩) s := by
    simp [craft_and_set_payload, hfw, hsc]
  have hsp := set_payload_200_ok (crafted_payload ⟨addr, sc⟩) hclen s hscript
  constructor
  · intro hres
    have hplan : overwrite_plan addr = none := by
      simp [overwrite_plan, hres]
    have hmain : exploit_setup s = (Result.new_ng kFwConstsInvalid [],
        (set_payload (crafted_payload ⟨addr, sc⟩) s).2) := by
      simp [exploit_setup, hresolve, hcraft, hsp, new_success_success,
        overwrite_cmd_table_ptr, hfw, hplan]
    rw [hmain, hsp]
    refine ⟨rfl, ?_⟩
    simp [oobWrites, List.filterMap_append]
  · intro hres
    refine ⟨((List.range 4).reverse.filter
        (fun pos => isPrintable ((targetBytes addr).getD pos 0))).map
        (fun pos => zeroUpTo pos (targetBytes addr)) ++ [targetBytes addr],
      by simp [overwrite_plan, hres], by simp, ?_, ?_⟩
    · have hmain : (exploit_setup s).1 = Result.new_success := by
        simp [exploit_setup, hresolve, hcraft, hsp, new_success_success,
          overwrite_cmd_table_ptr, hfw, overwrite_plan, hres]
      exact hmain
    · have hplan : overwrite_plan addr =
          some (((List.range 4).reverse.filter
            (fun pos => isPrintable ((targetBytes addr).getD pos 0))).map
            (fun pos => zeroUpTo pos (targetBytes addr)) ++ [targetBytes addr]) := by
        simp [overwrite_plan, hres]
      have hmain : (exploit_setup s).2 =
          ((((List.range 4).reverse.filter
            (fun pos => isPrintable ((targetBytes addr).getD pos 0))).map
            (fun pos => zeroUpTo pos (targetBytes addr)) ++
              [targetBytes addr]).foldl (fun u w => write_oob w u)
            (set_payload (crafted_payload ⟨addr, sc⟩) s).2) := by
        simp [exploit_setup, hresolve, hcraft, new_success_success,
          overwrite_cmd_table_ptr, hfw, hplan, hsp]
      rw [hmain, oobWrites_foldl]
      congr 1
      rw [hsp]
      simp [oobWrites, List.filterMap_append]

/-- A session whose cached address `0x800` carries the reserved backspace
byte `0x08` in its second byte. -/
def sessW3 : SessState :=
  ⟨[Result.new_ok kSuccess [], Result.new_ok kSuccess [], Result.new_ok kSuccess [],
    Result.new_ok kSuccess [], Result.new_ok kSuccess []],
   true, ⟨2048, List.replicate 159 0⟩, false, []⟩

set_option maxRecDepth 8192 in
/-- Witness for C3 on `sessW3`: setup fails with `kFwConstsInvalid` and
no corruption write is recorded. -/
theorem exploit_setup_reserved_witness :
    hasReservedByte 2048 = true ∧
      (exploit_setup sessW3).1 = Result.new_ng kFwConstsInvalid [] ∧
      oobWrites (exploit_setup sessW3).2.events = oobWrites sessW3.events :=
  ⟨by decide,
   (exploit_setup_reserved 2048 (List.replicate 159 0) sessW3 rfl rfl (by decide)
      rfl).1 (by decide)⟩
